import Mathlib

set_option autoImplicit false

/-!
Shallow embedding of `backbrightness.py` (backlight-to-gamma translation
daemon) and proofs of the specification claims about it.

The embedding models:
* the per-output `CrtcState` records and the `self.crtcs` mapping of the
  `BrightnessSetter` base class;
* `generate_gamma_table` (the function wrapped by `functools.lru_cache`),
  together with an explicit model of the LRU cache the decorator provides;
* the two backend variants: `XRandRBrightnessSetter` (discovery in
  `__find_crtcs`, run from `connect`, which only connects once) and
  `GnomeBrightnessSetter` (discovery in `init_configuration`, serial
  short-circuit);
* the `translate_backlight` control loop with its `try/finally` reset.

External transports (xcffib / pydbus) are modelled as oracle inputs: the
topology reported by the display server and the gamma ramps returned by
`GetCrtcGamma` are parameters of the discovery functions, and the calls the
backend issues (`SetCrtcGamma`) are collected as event lists.
Python exceptions are modelled with `Except`.
-/

namespace Backbrightness

/-- Python exception outcomes relevant to the embedded code paths:
`KeyError` from `self.crtcs[crtc_name]` and `TypeError` from iterating or
subscripting `None`. -/
inductive PyErr where
  | keyError
  | typeError
  deriving DecidableEq

/-- A gamma table: one integer sequence per color channel.  The source stores
the captured ramp as the list `[reply.red, reply.green, reply.blue]` and the
derivation iterates over the channels generically. -/
abbrev GammaTable := List (List ℤ)

/-- Per-output record created in `BrightnessSetter.__init__`:
`{'id': None, 'original_gamma': None}`. -/
structure CrtcState where
  id : Option ℕ
  original_gamma : Option GammaTable
  deriving DecidableEq

/-- The `self.crtcs` mapping: ordered association of output name to state
(a Python dict keyed by output name; keys are unique). -/
abbrev Crtcs := List (String × CrtcState)

/-- `BrightnessSetter.__init__`: one fresh entry per configured output name.
Duplicate names collapse into a single entry, as in a Python dict. -/
def mkCrtcs (output_names : List String) : Crtcs :=
  output_names.dedup.map (fun n => (n, ⟨none, none⟩))

/-- Python dict lookup (`self.crtcs.get(name)` / `self.crtcs[crtc_name]`). -/
def lookupCrtc (crtcs : Crtcs) (name : String) : Option CrtcState :=
  match crtcs with
  | [] => none
  | (n, c) :: rest => if n = name then some c else lookupCrtc rest name

/-- Python `int(q)` on a real number: truncation toward zero. -/
def pytrunc (q : ℚ) : ℤ :=
  if 0 ≤ q then ⌊q⌋ else ⌈q⌉

/-- Body of `BrightnessSetter.generate_gamma_table` (the function wrapped by
the `lru_cache` decorator): fetch `self.crtcs[crtc_name]['original_gamma']`;
if `brightness is None` return it verbatim; otherwise build
`tuple(list(int(i * brightness) for i in channel) for channel in table)`.
A name missing from the dict raises `KeyError`; a numeric brightness with a
still-unset (`None`) table raises `TypeError` (iterating `None`). -/
def generate_gamma_table (crtcs : Crtcs) (crtc_name : String)
    (brightness : Option ℚ) : Except PyErr (Option GammaTable) :=
  match lookupCrtc crtcs crtc_name with
  | none => .error .keyError
  | some crtc =>
    match brightness, crtc.original_gamma with
    | none, table => .ok table
    | some _, none => .error .typeError
    | some b, some table =>
        .ok (some (table.map (fun channel =>
          channel.map (fun i : ℤ => pytrunc ((i : ℚ) * b)))))

/-- `BrightnessSetter.reset`: delegate to `set_brightness` with the `None`
sentinel. -/
def reset {α : Type} (set_brightness : Option ℚ → α) : α :=
  set_brightness none

/-! ### The `functools.lru_cache(maxsize=10)` decorator on
`generate_gamma_table` -/

/-- Decorator state: cached key/result pairs, most recently used first. -/
abbrev LruCache (κ ν : Type) := List (κ × ν)

/-- Cache lookup (first entry with the given key). -/
def lruGet {κ ν : Type} [DecidableEq κ] (cache : LruCache κ ν) (k : κ) :
    Option ν :=
  match cache with
  | [] => none
  | (k2, v) :: rest => if k2 = k then some v else lruGet rest k

/-- Drop the entry with the given key. -/
def lruErase {κ ν : Type} [DecidableEq κ] (cache : LruCache κ ν) (k : κ) :
    LruCache κ ν :=
  cache.filter (fun p => decide (p.1 ≠ k))

/-- One call through the decorator.  A hit returns the cached result and
moves the key to the most-recently-used position.  A miss invokes the
wrapped function: if it returns, the result is stored and the
least-recently-used entry is dropped when the capacity is exceeded; if it
raises, the exception propagates and the cache is left untouched — a raised
exception is never cached, so an identical later call invokes the wrapped
function again.  The boolean records whether the wrapped function was
invoked. -/
def lruCall {κ ε α : Type} [DecidableEq κ] (f : κ → Except ε α) (cap : ℕ)
    (cache : LruCache κ α) (k : κ) : Except ε α × LruCache κ α × Bool :=
  match lruGet cache k with
  | some v => (.ok v, (k, v) :: lruErase cache k, false)
  | none =>
    match f k with
    | .ok v => (.ok v, ((k, v) :: cache).take cap, true)
    | .error e => (.error e, cache, true)

/-- A sequence of decorated calls, returning the final cache. -/
def lruCallSeq {κ ε α : Type} [DecidableEq κ] (f : κ → Except ε α) (cap : ℕ)
    (cache : LruCache κ α) (ks : List κ) : LruCache κ α :=
  ks.foldl (fun c k => (lruCall f cap c k).2.1) cache

/-- Cache key of the decorated `generate_gamma_table`: the
`(crtc_name, brightness)` argument pair (`self` is fixed per instance). -/
abbrev GammaKey := String × Option ℚ

/-- The wrapped derivation as a function of the cache key, for a fixed
`self.crtcs` mapping. -/
def gammaDerivation (crtcs : Crtcs) : GammaKey → Except PyErr (Option GammaTable) :=
  fun p => generate_gamma_table crtcs p.1 p.2

/-! ### Discovery (shared shape of `__find_crtcs` and `init_configuration`)

Both backends walk a list of reported `(crtc_id, output_name)` pairs after
clearing every recorded CRTC id; for every configured name they record the
handle, and capture `original_gamma` only when it is still unset. -/

/-- `for crtc in self.crtcs.values(): crtc['id'] = None`. -/
def clearIds (crtcs : Crtcs) : Crtcs :=
  crtcs.map (fun e => (e.1, ⟨none, e.2.original_gamma⟩))

/-- Effect of one reported `(crtc_id, name)` pair on one dict entry:
`crtc['id'] = crtc_id`, then capture `original_gamma` from the `GetCrtcGamma`
oracle `cap` only if it is still `None`. -/
def crtcVisitEntry (cap : ℕ → GammaTable) (e : String × CrtcState)
    (v : ℕ × String) : String × CrtcState :=
  if e.1 = v.2 then
    (e.1, ⟨some v.1,
      match e.2.original_gamma with
      | none => some (cap v.1)
      | some g => some g⟩)
  else e

/-- One reported `(crtc_id, name)` pair applied across the dict
(`self.crtcs.get(name)` touches exactly the entry keyed `name`). -/
def crtcVisit (cap : ℕ → GammaTable) (crtcs : Crtcs) (v : ℕ × String) :
    Crtcs :=
  crtcs.map (fun e => crtcVisitEntry cap e v)

/-- The discovery pass: clear all ids, then process every reported pair in
order. -/
def discoverCrtcs (cap : ℕ → GammaTable) (visits : List (ℕ × String))
    (crtcs : Crtcs) : Crtcs :=
  visits.foldl (crtcVisit cap) (clearIds crtcs)

/-- The X topology reported by `GetScreenResources`/`GetCrtcInfo`: each CRTC
id with the names of the outputs it drives. -/
abbrev Topology := List (ℕ × List String)

/-- The `(crtc_id, name)` pairs visited by the two nested loops of
`__find_crtcs`, in order. -/
def topologyVisits (topo : Topology) : List (ℕ × String) :=
  topo.flatMap (fun p => p.2.map (fun name => (p.1, name)))

/-- `XRandRBrightnessSetter.__find_crtcs`, driven by the reported topology
and the `GetCrtcGamma` replies. -/
def findCrtcs (cap : ℕ → GammaTable) (topo : Topology) (crtcs : Crtcs) :
    Crtcs :=
  discoverCrtcs cap (topologyVisits topo) crtcs

/-! ### Backend states, apply loops, runs, and the control loop -/

/-- One `SetCrtcGamma` request, recorded together with the configured output
it was issued for. -/
structure SetGammaCall where
  output : String
  crtc : ℕ
  table : GammaTable
  deriving DecidableEq

/-- State of an `XRandRBrightnessSetter`: whether `self.connection` is
established, and the `self.crtcs` dict. -/
structure XRandRState where
  connected : Bool
  crtcs : Crtcs
  deriving DecidableEq

/-- `XRandRBrightnessSetter.__init__`. -/
def mkXRandR (output_names : List String) : XRandRState :=
  ⟨false, mkCrtcs output_names⟩

/-- `connect`: establish the connection and run `__find_crtcs` only when no
connection exists yet; otherwise do nothing.  The boolean reports whether
enumeration ran. -/
def xrandrConnect (cap : ℕ → GammaTable) (topo : Topology)
    (st : XRandRState) : XRandRState × Bool :=
  if st.connected then (st, false)
  else (⟨true, findCrtcs cap topo st.crtcs⟩, true)

/-- The per-output loop shared by both `set_brightness` bodies: entries
without a CRTC handle are skipped (`continue`); for the rest the gamma table
is fetched and one `SetCrtcGamma` request is issued.  Returns the requests
issued before any failure, and the failure if one occurred (subscripting a
`None` table raises `TypeError`). -/
def applyLoop (crtcs : Crtcs) (brightness : Option ℚ) :
    List (String × CrtcState) → List SetGammaCall × Option PyErr
  | [] => ([], none)
  | (name, crtc) :: rest =>
    match crtc.id with
    | none => applyLoop crtcs brightness rest
    | some cid =>
      match generate_gamma_table crtcs name brightness with
      | .error e => ([], some e)
      | .ok none => ([], some .typeError)
      | .ok (some t) =>
        let tail := applyLoop crtcs brightness rest
        (⟨name, cid, t⟩ :: tail.1, tail.2)

/-- `XRandRBrightnessSetter.set_brightness`: `connect()` (which enumerates
only on the first call), then the per-output loop, then one `flush`.
Returns the new state, whether enumeration ran, the issued requests, and any
failure. -/
def xrandrSetBrightness (cap : ℕ → GammaTable) (topo : Topology)
    (brightness : Option ℚ) (st : XRandRState) :
    XRandRState × Bool × List SetGammaCall × Option PyErr :=
  let c := xrandrConnect cap topo st
  let r := applyLoop c.1.crtcs brightness c.1.crtcs
  (c.1, c.2, r.1, r.2)

/-- A run of XRandR `set_brightness` ticks: each tick supplies the topology
the server would report (only the first tick's topology is ever read, inside
`connect`) and a brightness; the run stops at the first failure. -/
def xrandrRun (cap : ℕ → GammaTable) (ticks : List (Topology × Option ℚ))
    (st : XRandRState) : XRandRState × List SetGammaCall × Option PyErr :=
  match ticks with
  | [] => (st, [], none)
  | (topo, b) :: rest =>
    let r := xrandrSetBrightness cap topo b st
    match r.2.2.2 with
    | some e => (r.1, r.2.2.1, some e)
    | none =>
      let r2 := xrandrRun cap rest r.1
      (r2.1, r.2.2.1 ++ r2.2.1, r2.2.2)

/-- The `GetResources` reply: the serial and the output tuples, of which the
code reads positional field 2 (the CRTC id) and field 4 (the connector
name). -/
structure GnomeResources where
  serial : ℤ
  outputs : List (ℕ × String)
  deriving DecidableEq

/-- State of a `GnomeBrightnessSetter`: the last-seen serial and the
`self.crtcs` dict. -/
structure GnomeState where
  serial : Option ℤ
  crtcs : Crtcs
  deriving DecidableEq

/-- The `GetCrtcGamma(serial, crtc_id)` calls `init_configuration` would
make while walking the reported outputs, given the current dict (only
configured outputs whose gamma is still unset are fetched). -/
def captureCalls (cap : ℕ → GammaTable) (crtcs : Crtcs) :
    List (ℕ × String) → List String
  | [] => []
  | v :: visits =>
    (match lookupCrtc crtcs v.2 with
     | some c => if c.original_gamma = none then [v.2] else []
     | none => []) ++ captureCalls cap (crtcVisit cap crtcs v) visits

/-- `GnomeBrightnessSetter.init_configuration`, driven by the `GetResources`
reply and the `GetCrtcGamma(serial, crtc_id)` oracle `cap`.  Unchanged
serial: immediate return.  Changed serial: store it, clear all recorded ids,
rebuild from the reported outputs, capturing `original_gamma` where still
unset.  Also returns the names whose gamma was fetched. -/
def gnomeInitConfiguration (cap : ℤ → ℕ → GammaTable) (res : GnomeResources)
    (st : GnomeState) : GnomeState × List String :=
  if some res.serial = st.serial then (st, [])
  else
    (⟨some res.serial, discoverCrtcs (cap res.serial) res.outputs st.crtcs⟩,
     captureCalls (cap res.serial) (clearIds st.crtcs) res.outputs)

/-- `GnomeBrightnessSetter.set_brightness`: re-run `init_configuration`,
then the per-output loop issuing `SetCrtcGamma(self.serial, …)` per
configured output with a known handle. -/
def gnomeSetBrightness (cap : ℤ → ℕ → GammaTable) (res : GnomeResources)
    (brightness : Option ℚ) (st : GnomeState) :
    GnomeState × List SetGammaCall × Option PyErr :=
  let r := gnomeInitConfiguration cap res st
  let a := applyLoop r.1.crtcs brightness r.1.crtcs
  (r.1, a.1, a.2)

/-- `GnomeBrightnessSetter.__init__`: fresh entries, no serial, then one
`init_configuration` against the first `GetResources` reply. -/
def mkGnome (cap : ℤ → ℕ → GammaTable) (res0 : GnomeResources)
    (output_names : List String) : GnomeState :=
  (gnomeInitConfiguration cap res0 ⟨none, mkCrtcs output_names⟩).1

/-- A run of Gnome `set_brightness` ticks: each tick supplies a
`GetResources` reply and a brightness; the run stops at the first failure. -/
def gnomeRun (cap : ℤ → ℕ → GammaTable)
    (ticks : List (GnomeResources × Option ℚ)) (st : GnomeState) :
    GnomeState × List SetGammaCall × Option PyErr :=
  match ticks with
  | [] => (st, [], none)
  | (res, b) :: rest =>
    let r := gnomeSetBrightness cap res b st
    match r.2.2 with
    | some e => (r.1, r.2.1, some e)
    | none =>
      let r2 := gnomeRun cap rest r.1
      (r2.1, r.2.1 ++ r2.2.1, r2.2.2)

/-- Python dict keys are unique. -/
def KeysNodup (crtcs : Crtcs) : Prop :=
  (crtcs.map Prod.fst).Nodup

/-- Every entry with a recorded CRTC handle has a captured original ramp. -/
def IdImpliesGamma (crtcs : Crtcs) : Prop :=
  ∀ e ∈ crtcs, e.2.id ≠ none → e.2.original_gamma ≠ none

/-- The `while True` body of `translate_backlight` over a list of
`(max_brightness, actual_brightness)` readings, parametric in the backend
`setB`: each tick reads the two integers, computes `actual / max` (a zero
`max` raises `ZeroDivisionError`), and calls `set_brightness`.  Returns the
trace of `set_brightness` calls and the final backend state; the loop stops
at the first failure, or by external cancellation when the readings are
exhausted (the loop itself never terminates). -/
def translateTicks {σ : Type} (setB : Option ℚ → σ → σ × Option PyErr) :
    List (ℤ × ℤ) → σ → List (Option ℚ) × σ
  | [], st => ([], st)
  | (mx, ac) :: rest, st =>
    if mx = 0 then ([], st)
    else
      let r := setB (some ((ac : ℚ) / (mx : ℚ))) st
      match r.2 with
      | some _ => ([some ((ac : ℚ) / (mx : ℚ))], r.1)
      | none =>
        let r2 := translateTicks setB rest r.1
        (some ((ac : ℚ) / (mx : ℚ)) :: r2.1, r2.2)

/-- `translate_backlight`: the polling loop wrapped in `try/finally`, with
`setter.reset()` — which is `set_brightness(None)` — in the `finally`
block, so it runs on every exit path (failure mid-tick or external
cancellation) before the failure propagates.  Returns the full ordered trace
of `set_brightness` calls and the final backend state. -/
def translate_backlight {σ : Type} (setB : Option ℚ → σ → σ × Option PyErr)
    (ticks : List (ℤ × ℤ)) (st : σ) : List (Option ℚ) × σ :=
  let r := translateTicks setB ticks st
  let fin := reset (fun b => setB b r.2)
  (r.1 ++ [none], fin.1)

/-! ### Basic facts about the derivation -/

/-- The gamma table the SPEC prescribes for a numeric factor:
`floor(originalGamma[c][i] * f)` at every channel and index.  Stated from
the spec formula, to be compared against the table the source derives. -/
def specFloorTable (f : ℚ) (table : GammaTable) : GammaTable :=
  table.map (fun ch => ch.map (fun x : ℤ => ⌊(x : ℚ) * f⌋))

theorem pytrunc_eq_floor {q : ℚ} (h : 0 ≤ q) : pytrunc q = ⌊q⌋ := by
  simp [pytrunc, h]

/-- **C2.** For every output whose `originalGamma` is populated and every
factor `f ∈ (0, 1]`, the table returned by `generate_gamma_table` is exactly
the original table with every entry multiplied by `f` and truncated toward
zero, which for the nonnegative ramp entries delivered by the display
protocols equals `floor(originalGamma[c][i] * f)` at every channel `c` and
index `i`; no other clamping is applied. -/
theorem generate_gamma_table_scales (crtcs : Crtcs) (name : String)
    (c : CrtcState) (table : GammaTable) (f : ℚ)
    (hc : lookupCrtc crtcs name = some c)
    (hg : c.original_gamma = some table)
    (hf0 : 0 < f) (hf1 : f ≤ 1)
    (hnn : ∀ ch ∈ table, ∀ x ∈ ch, 0 ≤ x) :
    generate_gamma_table crtcs name (some f)
      = Except.ok (some (specFloorTable f table)) ∧
    ∀ ci ii : ℕ,
      ((specFloorTable f table)[ci]?).bind (fun ch : List ℤ => ch[ii]?)
        = (table[ci]?.bind (fun ch : List ℤ => ch[ii]?)).map
            (fun x : ℤ => ⌊(x : ℚ) * f⌋) := by
  constructor
  · have hmap : table.map (fun ch => ch.map (fun i : ℤ => pytrunc ((i : ℚ) * f)))
        = specFloorTable f table := by
      apply List.map_congr_left
      intro ch hch
      apply List.map_congr_left
      intro x hx
      have hx0 : (0 : ℚ) ≤ (x : ℚ) := by
        exact_mod_cast hnn ch hch x hx
      exact pytrunc_eq_floor (mul_nonneg hx0 (le_of_lt hf0))
    simp only [generate_gamma_table, hc, hg]
    rw [hmap]
  · intro ci ii
    rcases hci : table[ci]? with _ | ch
    · simp [specFloorTable, List.getElem?_map, hci]
    · simp [specFloorTable, List.getElem?_map, hci]

/-- Witness for C2, using the spec example ramp `[0, 4000, 8000]` and factor
`1/4` (yielding `[0, 1000, 2000]`). -/
theorem generate_gamma_table_scales_witness :
    generate_gamma_table
        [("eDP-1", ⟨some 5, some [[0, 4000, 8000], [0, 4000, 8000], [0, 4000, 8000]]⟩)]
        "eDP-1" (some (1/4))
      = Except.ok (some [[0, 1000, 2000], [0, 1000, 2000], [0, 1000, 2000]]) := by
  have h := generate_gamma_table_scales
    [("eDP-1", ⟨some 5, some [[0, 4000, 8000], [0, 4000, 8000], [0, 4000, 8000]]⟩)]
    "eDP-1"
    ⟨some 5, some [[0, 4000, 8000], [0, 4000, 8000], [0, 4000, 8000]]⟩
    [[0, 4000, 8000], [0, 4000, 8000], [0, 4000, 8000]]
    (1/4) (by decide) rfl (by norm_num) (by norm_num) (by decide)
  rw [h.1]
  norm_num [specFloorTable]

/-- **C5.** For an output with populated `originalGamma`, requesting the
table with the `None` sentinel returns the stored `originalGamma` verbatim:
no truncation and no new derived table. -/
theorem generate_gamma_table_none_ident (crtcs : Crtcs) (name : String)
    (c : CrtcState) (table : GammaTable)
    (hc : lookupCrtc crtcs name = some c)
    (hg : c.original_gamma = some table) :
    generate_gamma_table crtcs name none = Except.ok (some table) := by
  simp [generate_gamma_table, hc, hg]

/-- Witness for C5. -/
theorem generate_gamma_table_none_ident_witness :
    generate_gamma_table [("eDP-1", ⟨some 5, some [[1, 2], [3, 4], [5, 6]]⟩)]
        "eDP-1" none
      = Except.ok (some [[1, 2], [3, 4], [5, 6]]) :=
  generate_gamma_table_none_ident _ "eDP-1"
    ⟨some 5, some [[1, 2], [3, 4], [5, 6]]⟩ _ rfl rfl

/-- **C9 counterexample.** On a freshly constructed setter (discovery has not
populated `originalGamma`), calling `generate_gamma_table` with a numeric
factor fails with a `TypeError` (the code iterates over `None`), refuting the
claim that any brightness argument yields a table without failing. -/
theorem generate_gamma_table_undiscovered_cex :
    generate_gamma_table (mkCrtcs ["eDP-1"]) "eDP-1" (some (1/2))
      = Except.error PyErr.typeError := by
  rfl

/-- **C9 (amended).** Before discovery has populated `originalGamma`, only
the `None` sentinel is safe: it returns the current (unset) `originalGamma`,
i.e. `None`, without failing; any numeric factor raises a `TypeError`. -/
theorem generate_gamma_table_undiscovered (crtcs : Crtcs) (name : String)
    (c : CrtcState)
    (hc : lookupCrtc crtcs name = some c)
    (hg : c.original_gamma = none) :
    generate_gamma_table crtcs name none = Except.ok none ∧
    ∀ f : ℚ, generate_gamma_table crtcs name (some f)
      = Except.error PyErr.typeError := by
  constructor
  · simp [generate_gamma_table, hc, hg]
  · intro f
    simp [generate_gamma_table, hc, hg]

/-- Witness for the amended C9 on a freshly constructed setter. -/
theorem generate_gamma_table_undiscovered_witness :
    generate_gamma_table (mkCrtcs ["eDP-1"]) "eDP-1" none = Except.ok none ∧
    generate_gamma_table (mkCrtcs ["eDP-1"]) "eDP-1" (some (3/4))
      = Except.error PyErr.typeError := by
  have h := generate_gamma_table_undiscovered (mkCrtcs ["eDP-1"]) "eDP-1"
    ⟨none, none⟩ (by rfl) rfl
  exact ⟨h.1, h.2 (3/4)⟩

theorem lruGet_map_of_mem {κ ν : Type} [DecidableEq κ] (f : κ → ν)
    (l : List κ) (k : κ) (h : k ∈ l) :
    lruGet (l.map (fun x => (x, f x))) k = some (f k) := by
  induction l with
  | nil => cases h
  | cons a rest ih =>
    rcases List.mem_cons.mp h with h1 | h2
    · subst h1
      simp [lruGet]
    · by_cases ha : a = k
      · subst ha
        simp [lruGet]
      · simpa [lruGet, ha] using ih h2

theorem lruGet_append_of_none {κ ν : Type} [DecidableEq κ]
    (l1 l2 : LruCache κ ν) (k : κ) (h : lruGet l1 k = none) :
    lruGet (l1 ++ l2) k = lruGet l2 k := by
  induction l1 with
  | nil => rfl
  | cons p rest ih =>
    obtain ⟨k2, v⟩ := p
    by_cases hk2 : k2 = k
    · simp [lruGet, hk2] at h
    · simp only [lruGet, hk2, if_false] at h ⊢
      exact ih h

theorem lruGet_map_of_not_mem {κ ν : Type} [DecidableEq κ] (f : κ → ν)
    (l : List κ) (k : κ) (h : k ∉ l) :
    lruGet (l.map (fun x => (x, f x))) k = none := by
  induction l with
  | nil => rfl
  | cons a rest ih =>
    have ha : a ≠ k := fun e => h (e ▸ List.mem_cons_self a rest)
    have hrest : k ∉ rest := fun e => h (List.mem_cons_of_mem a e)
    simpa [lruGet, ha] using ih hrest

/-- Inserting fresh, pairwise-distinct keys whose calls all return and stay
within capacity produces exactly the reversed key list (most recent first)
in front of the old cache. -/
theorem lruCallSeq_fresh {κ ε α : Type} [DecidableEq κ] (f : κ → Except ε α)
    (fv : κ → α) (cap : ℕ) (ks : List κ) (cache : LruCache κ α)
    (hnd : ks.Nodup) (hfresh : ∀ k ∈ ks, lruGet cache k = none)
    (hsucc : ∀ k ∈ ks, f k = Except.ok (fv k))
    (hlen : cache.length + ks.length ≤ cap) :
    lruCallSeq f cap cache ks
      = ks.reverse.map (fun k => (k, fv k)) ++ cache := by
  induction ks generalizing cache with
  | nil => simp [lruCallSeq]
  | cons k rest ih =>
    have hk : lruGet cache k = none := hfresh k (List.mem_cons_self k rest)
    have hkv : f k = Except.ok (fv k) := hsucc k (List.mem_cons_self k rest)
    have hlen1 : cache.length + 1 ≤ cap := by
      have := hlen
      simp [List.length_cons] at this
      omega
    have hstep : (lruCall f cap cache k).2.1 = (k, fv k) :: cache := by
      simp only [lruCall, hk, hkv]
      exact List.take_of_length_le (by simpa using hlen1)
    have hnd2 : rest.Nodup := (List.nodup_cons.mp hnd).2
    have hknotk : k ∉ rest := (List.nodup_cons.mp hnd).1
    have hfresh2 : ∀ k2 ∈ rest, lruGet ((k, fv k) :: cache) k2 = none := by
      intro k2 hk2
      have hne : k ≠ k2 := fun e => hknotk (e ▸ hk2)
      simpa [lruGet, hne] using hfresh k2 (List.mem_cons_of_mem k hk2)
    have hsucc2 : ∀ k2 ∈ rest, f k2 = Except.ok (fv k2) :=
      fun k2 hk2 => hsucc k2 (List.mem_cons_of_mem k hk2)
    have hlen2 : ((k, fv k) :: cache).length + rest.length ≤ cap := by
      simp only [List.length_cons]
      simp [List.length_cons] at hlen
      omega
    have : lruCallSeq f cap cache (k :: rest)
        = lruCallSeq f cap ((k, fv k) :: cache) rest := by
      simp [lruCallSeq, hstep]
    rw [this, ih ((k, fv k) :: cache) hnd2 hfresh2 hsucc2 hlen2]
    simp

/-- **C8 counterexample.** On a freshly constructed setter (gamma still
unset) the derivation for a numeric key raises; `functools.lru_cache` never
caches a raising call, so a second call with the identical arguments invokes
the underlying derivation again — refuting the claim that two identical
calls invoke the derivation at most once. -/
theorem generate_gamma_table_lru_cex :
    (lruCall (gammaDerivation (mkCrtcs ["a"])) 10
      ((lruCall (gammaDerivation (mkCrtcs ["a"])) 10 [] ("a", some (1/2))).2.1)
      ("a", some (1/2))).2.2 = true := by
  rfl

/-- **C8 (amended).** Successful results of `generate_gamma_table` are
memoized keyed by the `(crtc_name, brightness)` pair in a capacity-10 cache
with least-recently-used eviction; a call whose derivation raises caches
nothing (the cache is untouched) and an identical later call re-invokes the
derivation.  For calls whose derivation returns: a repeated call with
identical arguments is a hit (the derivation is not invoked again and the
same result is returned), and inserting an 11th distinct successfully
derived key into a full cache evicts exactly the least-recently-used key
while the other 10 stay retrievable without recomputation. -/
theorem generate_gamma_table_lru (crtcs : Crtcs) :
    (∀ (cache : LruCache GammaKey (Option GammaTable)) (k : GammaKey)
        (v : Option GammaTable),
      gammaDerivation crtcs k = .ok v →
      (lruCall (gammaDerivation crtcs) 10
          ((lruCall (gammaDerivation crtcs) 10 cache k).2.1) k).2.2 = false ∧
      (lruCall (gammaDerivation crtcs) 10
          ((lruCall (gammaDerivation crtcs) 10 cache k).2.1) k).1
        = (lruCall (gammaDerivation crtcs) 10 cache k).1) ∧
    (∀ (cache : LruCache GammaKey (Option GammaTable)) (k : GammaKey)
        (e : PyErr),
      gammaDerivation crtcs k = .error e → lruGet cache k = none →
      lruCall (gammaDerivation crtcs) 10 cache k = (.error e, cache, true) ∧
      (lruCall (gammaDerivation crtcs) 10
          ((lruCall (gammaDerivation crtcs) 10 cache k).2.1) k).2.2 = true) ∧
    (∀ (k0 klast : GammaKey) (mid : List GammaKey)
        (fv : GammaKey → Option GammaTable),
      (k0 :: (mid ++ [klast])).Nodup → mid.length = 9 →
      (∀ k ∈ k0 :: (mid ++ [klast]), gammaDerivation crtcs k = .ok (fv k)) →
      lruGet (lruCallSeq (gammaDerivation crtcs) 10 []
          (k0 :: (mid ++ [klast]))) k0 = none ∧
      ∀ k ∈ klast :: mid,
        lruGet (lruCallSeq (gammaDerivation crtcs) 10 []
            (k0 :: (mid ++ [klast]))) k = some (fv k) ∧
        (lruCall (gammaDerivation crtcs) 10
            (lruCallSeq (gammaDerivation crtcs) 10 [] (k0 :: (mid ++ [klast])))
            k).2.2 = false) := by
  set f := gammaDerivation crtcs with hf
  refine ⟨?_, ?_, ?_⟩
  · intro cache k v hv
    rcases hget : lruGet cache k with _ | w
    · have h1 : lruCall f 10 cache k
          = (.ok v, (k, v) :: cache.take 9, true) := by
        simp [lruCall, hget, hv, List.take_succ_cons]
      rw [h1]
      have h2 : lruGet ((k, v) :: cache.take 9) k = some v := by
        simp [lruGet]
      simp [lruCall, h2]
    · have h1 : lruCall f 10 cache k
          = (.ok w, (k, w) :: lruErase cache k, false) := by
        simp [lruCall, hget]
      rw [h1]
      have h2 : lruGet ((k, w) :: lruErase cache k) k = some w := by
        simp [lruGet]
      simp [lruCall, h2]
  · intro cache k e herr hget
    have h1 : lruCall f 10 cache k = (.error e, cache, true) := by
      simp [lruCall, hget, herr]
    refine ⟨h1, ?_⟩
    rw [h1]
    simp [lruCall, hget, herr]
  · intro k0 klast mid fv hnd hlen hsucc
    have hnd1 := List.nodup_cons.mp hnd
    have hk0 : k0 ∉ mid ++ [klast] := hnd1.1
    have hnd2 := List.nodup_append.mp hnd1.2
    have hmidnd : mid.Nodup := hnd2.1
    have hdisj := hnd2.2.2
    have hklastmid : klast ∉ mid := by
      intro hmem
      exact hdisj hmem (List.mem_singleton_self klast)
    have hk0mid : k0 ∉ mid := fun h => hk0 (List.mem_append_left _ h)
    have hk0last : k0 ≠ klast := by
      intro h
      exact hk0 (List.mem_append_right _ (h ▸ List.mem_singleton_self klast))
    -- state after the first 10 (fresh, returning, within capacity) calls
    have hfirst : lruCallSeq f 10 [] (k0 :: mid)
        = (k0 :: mid).reverse.map (fun k => (k, fv k)) ++ [] := by
      apply lruCallSeq_fresh
      · exact List.nodup_cons.mpr ⟨hk0mid, hmidnd⟩
      · intro k _
        rfl
      · intro k hk
        apply hsucc
        rcases List.mem_cons.mp hk with h | h
        · exact h ▸ List.mem_cons_self _ _
        · exact List.mem_cons_of_mem _ (List.mem_append_left _ h)
      · simp [hlen]
    have hc10 : lruCallSeq f 10 [] (k0 :: mid)
        = (mid.reverse.map (fun k => (k, fv k))) ++ [(k0, fv k0)] := by
      rw [hfirst]
      simp
    -- the 11th call: a miss on a full cache, truncated back to 10 entries
    have hsplit : lruCallSeq f 10 [] (k0 :: (mid ++ [klast]))
        = (lruCall f 10 (lruCallSeq f 10 [] (k0 :: mid)) klast).2.1 := by
      show lruCallSeq f 10 [] ((k0 :: mid) ++ [klast]) = _
      simp [lruCallSeq, List.foldl_append]
    have hmisslast : lruGet (lruCallSeq f 10 [] (k0 :: mid)) klast = none := by
      rw [hc10]
      have h1 : klast ∉ mid.reverse := by
        simpa using hklastmid
      rw [lruGet_append_of_none _ _ _ (lruGet_map_of_not_mem fv mid.reverse klast h1)]
      simp [lruGet, hk0last]
    have hoklast : f klast = Except.ok (fv klast) :=
      hsucc klast (List.mem_cons_of_mem _
        (List.mem_append_right _ (List.mem_singleton_self klast)))
    have htail : (mid.reverse.map (fun k => (k, fv k)) ++ [(k0, fv k0)]).take 9
        = mid.reverse.map (fun k => (k, fv k)) := by
      rw [List.take_append_of_le_length (by simp [hlen])]
      rw [List.take_of_length_le (by simp [hlen])]
    have hfinal : lruCallSeq f 10 [] (k0 :: (mid ++ [klast]))
        = (klast, fv klast) :: mid.reverse.map (fun k => (k, fv k)) := by
      rw [hsplit]
      simp only [lruCall, hmisslast, hoklast]
      rw [hc10, List.take_succ_cons, htail]
    constructor
    · rw [hfinal]
      have hne : klast ≠ k0 := Ne.symm hk0last
      have h1 : k0 ∉ mid.reverse := by simpa using hk0mid
      simpa [lruGet, hne] using lruGet_map_of_not_mem fv mid.reverse k0 h1
    · intro k hk
      have hget : lruGet (lruCallSeq f 10 [] (k0 :: (mid ++ [klast]))) k
          = some (fv k) := by
        rw [hfinal]
        rcases List.mem_cons.mp hk with h1 | h2
        · subst h1
          simp [lruGet]
        · by_cases hkl : klast = k
          · subst hkl
            simp [lruGet]
          · have hmm : k ∈ mid.reverse := by simpa using h2
            simpa [lruGet, hkl] using lruGet_map_of_mem fv mid.reverse k hmm
      exact ⟨hget, by simp [lruCall, hget]⟩

/-- Witness for the amended C8: a setter whose output has a captured ramp,
eleven concrete distinct `(name, factor)` keys all of whose derivations
return; after all eleven calls the first key is evicted and the second is
still cached with the derived result. -/
theorem generate_gamma_table_lru_witness :
    lruGet (lruCallSeq (gammaDerivation [("a", ⟨some 5, some [[0], [0], [0]]⟩)]) 10 []
        (("a", some 1) :: ([("a", some 2), ("a", some 3), ("a", some 4),
          ("a", some 5), ("a", some 6), ("a", some 7), ("a", some 8),
          ("a", some 9), ("a", some 10)] ++ [("a", none)]))) ("a", some 1)
      = none ∧
    lruGet (lruCallSeq (gammaDerivation [("a", ⟨some 5, some [[0], [0], [0]]⟩)]) 10 []
        (("a", some 1) :: ([("a", some 2), ("a", some 3), ("a", some 4),
          ("a", some 5), ("a", some 6), ("a", some 7), ("a", some 8),
          ("a", some 9), ("a", some 10)] ++ [("a", none)]))) ("a", some 2)
      = some (some [[0], [0], [0]]) := by
  have h := (generate_gamma_table_lru
      [("a", ⟨some 5, some [[0], [0], [0]]⟩)]).2.2
    ("a", some 1) ("a", none)
    [("a", some 2), ("a", some 3), ("a", some 4), ("a", some 5),
     ("a", some 6), ("a", some 7), ("a", some 8), ("a", some 9),
     ("a", some 10)]
    (fun _ => some [[0], [0], [0]])
    (by decide) (by decide)
    (by
      intro k hk
      rcases List.mem_cons.mp hk with rfl | hk2
      · simp [gammaDerivation, generate_gamma_table, lookupCrtc, pytrunc]
      rcases List.mem_append.mp hk2 with hk3 | hk4
      · fin_cases hk3 <;>
          simp [gammaDerivation, generate_gamma_table, lookupCrtc, pytrunc]
      · rw [List.mem_singleton.mp hk4]
        simp [gammaDerivation, generate_gamma_table, lookupCrtc])
  exact ⟨h.1, (h.2 ("a", some 2) (by decide)).1⟩

/-! #### Entry-level lemmas about discovery -/

theorem crtcVisitEntry_fst (cap : ℕ → GammaTable) (e : String × CrtcState)
    (v : ℕ × String) : (crtcVisitEntry cap e v).1 = e.1 := by
  unfold crtcVisitEntry
  split <;> rfl

theorem foldVisits_fst (cap : ℕ → GammaTable) (visits : List (ℕ × String))
    (e : String × CrtcState) :
    (visits.foldl (crtcVisitEntry cap) e).1 = e.1 := by
  induction visits generalizing e with
  | nil => rfl
  | cons v rest ih => rw [List.foldl_cons, ih, crtcVisitEntry_fst]

theorem foldl_crtcVisit_map (cap : ℕ → GammaTable)
    (visits : List (ℕ × String)) (crtcs : Crtcs)
    (g : String × CrtcState → String × CrtcState) :
    visits.foldl (crtcVisit cap) (crtcs.map g)
      = crtcs.map (fun e => visits.foldl (crtcVisitEntry cap) (g e)) := by
  induction visits generalizing g with
  | nil => simp
  | cons v rest ih =>
    rw [List.foldl_cons]
    have h1 : crtcVisit cap (crtcs.map g) v
        = crtcs.map (fun e => crtcVisitEntry cap (g e) v) := by
      unfold crtcVisit
      rw [List.map_map]
      rfl
    rw [h1, ih (fun e => crtcVisitEntry cap (g e) v)]
    rfl

/-- The discovery fold acts on every dict entry independently. -/
theorem discoverCrtcs_map (cap : ℕ → GammaTable) (visits : List (ℕ × String))
    (crtcs : Crtcs) :
    discoverCrtcs cap visits crtcs
      = crtcs.map (fun e =>
          visits.foldl (crtcVisitEntry cap) (e.1, ⟨none, e.2.original_gamma⟩)) := by
  unfold discoverCrtcs
  exact foldl_crtcVisit_map cap visits crtcs
    (fun e => (e.1, ⟨none, e.2.original_gamma⟩))

/-- Once `original_gamma` is populated it survives any sequence of visits
unchanged. -/
theorem foldVisits_og_preserved (cap : ℕ → GammaTable)
    (visits : List (ℕ × String)) (e : String × CrtcState) (g : GammaTable)
    (hg : e.2.original_gamma = some g) :
    (visits.foldl (crtcVisitEntry cap) e).2.original_gamma = some g := by
  induction visits generalizing e with
  | nil => exact hg
  | cons v rest ih =>
    rw [List.foldl_cons]
    apply ih
    unfold crtcVisitEntry
    split
    · simp [hg]
    · exact hg

/-- `original_gamma` is populated after the visits exactly when it was
already populated or the entry's name was reported. -/
theorem foldVisits_og_populated (cap : ℕ → GammaTable)
    (visits : List (ℕ × String)) (e : String × CrtcState) :
    ((visits.foldl (crtcVisitEntry cap) e).2.original_gamma ≠ none)
      ↔ (e.2.original_gamma ≠ none ∨ e.1 ∈ visits.map Prod.snd) := by
  induction visits generalizing e with
  | nil => simp
  | cons v rest ih =>
    rw [List.foldl_cons, ih]
    unfold crtcVisitEntry
    by_cases hname : e.1 = v.2
    · simp only [hname, if_pos rfl]
      rcases hog : e.2.original_gamma with _ | g
      · simp [hname]
      · simp [hname]
    · simp only [if_neg hname]
      simp [hname]

/-- A set CRTC handle stays set across further visits. -/
theorem foldVisits_id_stays (cap : ℕ → GammaTable)
    (visits : List (ℕ × String)) (e : String × CrtcState)
    (h : e.2.id ≠ none) :
    (visits.foldl (crtcVisitEntry cap) e).2.id ≠ none := by
  induction visits generalizing e with
  | nil => exact h
  | cons v rest ih =>
    rw [List.foldl_cons]
    apply ih
    unfold crtcVisitEntry
    split
    · simp
    · exact h

/-- The CRTC handle is set after the visits exactly when the entry's name was
reported (the fold starts from a cleared id). -/
theorem foldVisits_id_set (cap : ℕ → GammaTable)
    (visits : List (ℕ × String)) (name : String) (og : Option GammaTable) :
    ((visits.foldl (crtcVisitEntry cap) (name, ⟨none, og⟩)).2.id ≠ none)
      ↔ name ∈ visits.map Prod.snd := by
  induction visits generalizing og with
  | nil => simp
  | cons v rest ih =>
    rw [List.foldl_cons]
    by_cases hname : name = v.2
    · have hid : (crtcVisitEntry cap (name, ⟨none, og⟩) v).2.id = some v.1 := by
        unfold crtcVisitEntry
        rcases og with _ | g <;> simp [hname]
      have hstays := foldVisits_id_stays cap rest
        (crtcVisitEntry cap (name, ⟨none, og⟩) v) (by rw [hid]; simp)
      simp only [List.map_cons, List.mem_cons]
      exact ⟨fun _ => Or.inl hname, fun _ => hstays⟩
    · have hv : crtcVisitEntry cap (name, ⟨none, og⟩) v = (name, ⟨none, og⟩) := by
        unfold crtcVisitEntry
        simp [hname]
      rw [hv, ih og]
      simp [hname]

/-- An entry whose name is never reported comes out of discovery with its id
cleared and its `original_gamma` untouched. -/
theorem foldVisits_unreported (cap : ℕ → GammaTable)
    (visits : List (ℕ × String)) (e : String × CrtcState)
    (h : e.1 ∉ visits.map Prod.snd) :
    visits.foldl (crtcVisitEntry cap) e = e := by
  induction visits generalizing e with
  | nil => rfl
  | cons v rest ih =>
    rw [List.foldl_cons]
    have hne : e.1 ≠ v.2 := by
      intro he
      exact h (by simp [he])
    rw [show crtcVisitEntry cap e v = e from by unfold crtcVisitEntry; simp [hne]]
    exact ih e (fun hm => h (by simp at hm ⊢; exact Or.inr hm))

/-- Key-respecting maps commute with dict lookup. -/
theorem lookupCrtc_map (f : String × CrtcState → String × CrtcState)
    (hf : ∀ e, (f e).1 = e.1) (crtcs : Crtcs) (name : String) :
    lookupCrtc (crtcs.map f) name
      = (lookupCrtc crtcs name).map (fun c => (f (name, c)).2) := by
  induction crtcs with
  | nil => rfl
  | cons e rest ih =>
    obtain ⟨k, c⟩ := e
    by_cases hk : k = name
    · subst hk
      have h1 : (f (k, c)).1 = k := hf (k, c)
      rcases hfe : f (k, c) with ⟨k2, c2⟩
      rw [hfe] at h1
      simp at h1
      subst h1
      simp [lookupCrtc, hfe]
    · have h1 : (f (k, c)).1 = k := hf (k, c)
      rcases hfe : f (k, c) with ⟨k2, c2⟩
      rw [hfe] at h1
      simp at h1
      subst h1
      simp only [List.map_cons, hfe, lookupCrtc, hk, if_false, if_neg hk]
      exact ih

/-- **C3.** In both backend variants, `originalGamma` is captured only while
still unset and, once captured, is never overwritten by any later discovery,
including re-discovery after a topology change: an XRandR `__find_crtcs`
pass and a Gnome rebuild both leave an already-populated `originalGamma`
byte-for-byte intact, and after a pass it is populated only if it already
was or the output was just reported (lazy capture at discovery time). -/
theorem original_gamma_capture_once (cap : ℕ → GammaTable)
    (cap2 : ℤ → ℕ → GammaTable) (crtcs : Crtcs) (name : String)
    (c : CrtcState) (g : GammaTable)
    (hc : lookupCrtc crtcs name = some c)
    (hg : c.original_gamma = some g) :
    (∀ topo : Topology,
      ∃ c2, lookupCrtc (findCrtcs cap topo crtcs) name = some c2 ∧
        c2.original_gamma = some g) ∧
    (∀ (res : GnomeResources) (serial : Option ℤ),
      ∃ c2, lookupCrtc
          (gnomeInitConfiguration cap2 res ⟨serial, crtcs⟩).1.crtcs name
          = some c2 ∧
        c2.original_gamma = some g) ∧
    (∀ visits : List (ℕ × String),
      ∃ c2, lookupCrtc (discoverCrtcs cap visits crtcs) name = some c2 ∧
        c2.original_gamma = some g ∧
        (c2.original_gamma ≠ none
          ↔ (c.original_gamma ≠ none ∨ name ∈ visits.map Prod.snd))) := by
  have main : ∀ (cap3 : ℕ → GammaTable) (visits : List (ℕ × String)),
      ∃ c2, lookupCrtc (discoverCrtcs cap3 visits crtcs) name = some c2 ∧
        c2.original_gamma = some g := by
    intro cap3 visits
    rw [discoverCrtcs_map,
      lookupCrtc_map
        (fun e => visits.foldl (crtcVisitEntry cap3) (e.1, ⟨none, e.2.original_gamma⟩))
        (fun e => by simpa using foldVisits_fst cap3 visits (e.1, ⟨none, e.2.original_gamma⟩))
        crtcs name,
      hc]
    refine ⟨_, rfl, ?_⟩
    exact foldVisits_og_preserved cap3 visits (name, ⟨none, c.original_gamma⟩) g hg
  refine ⟨fun topo => main cap (topologyVisits topo), ?_, ?_⟩
  · intro res serial
    unfold gnomeInitConfiguration
    split
    · exact ⟨c, hc, hg⟩
    · exact main (cap2 res.serial) res.outputs
  · intro visits
    obtain ⟨c2, h1, h2⟩ := main cap visits
    refine ⟨c2, h1, h2, ?_⟩
    simp [h2, hg]

/-- Witness for C3: an output with an already-captured ramp keeps it through
an XRandR re-discovery and through a Gnome rebuild that re-detects it. -/
theorem original_gamma_capture_once_witness :
    (∃ c2, lookupCrtc
        (findCrtcs (fun _ => [[7]]) [(2, ["a"])] [("a", ⟨some 1, some [[5]]⟩)])
        "a" = some c2 ∧ c2.original_gamma = some [[5]]) ∧
    (∃ c2, lookupCrtc
        (gnomeInitConfiguration (fun _ _ => [[7]]) ⟨9, [(2, "a")]⟩
          ⟨none, [("a", ⟨some 1, some [[5]]⟩)]⟩).1.crtcs
        "a" = some c2 ∧ c2.original_gamma = some [[5]]) := by
  have h := original_gamma_capture_once (fun _ => [[7]]) (fun _ _ => [[7]])
    [("a", ⟨some 1, some [[5]]⟩)] "a" ⟨some 1, some [[5]]⟩ [[5]] rfl rfl
  exact ⟨h.1 [(2, ["a"])], h.2.1 ⟨9, [(2, "a")]⟩ none⟩

/-! ### The control loop -/

theorem translateTicks_no_none {σ : Type}
    (setB : Option ℚ → σ → σ × Option PyErr) (ticks : List (ℤ × ℤ))
    (st : σ) : ∀ x ∈ (translateTicks setB ticks st).1, x ≠ none := by
  induction ticks generalizing st with
  | nil =>
    intro x hx
    simp [translateTicks] at hx
  | cons t rest ih =>
    obtain ⟨mx, ac⟩ := t
    intro x hx
    unfold translateTicks at hx
    by_cases hmx : mx = 0
    · rw [if_pos hmx] at hx
      simp at hx
    · rw [if_neg hmx] at hx
      dsimp only at hx
      rcases h2 : (setB (some ((ac : ℚ) / (mx : ℚ))) st).2 with _ | e
      · rw [h2] at hx
        simp only [List.mem_cons] at hx
        rcases hx with hx | hx
        · subst hx
          simp
        · exact ih _ x hx
      · rw [h2] at hx
        simp only [List.mem_singleton] at hx
        subst hx
        simp

/-- **C1.** On every exit of the control loop — a failure raised during any
tick (a zero `max_brightness` or a backend failure) or external
cancellation — `reset()` runs exactly once before the failure propagates:
the call trace contains exactly one `None` application, it is the very last
call (no further apply calls occur after it), and `reset()` is literally
`set_brightness(None)`. -/
theorem translate_backlight_reset_exactly_once {σ : Type}
    (setB : Option ℚ → σ → σ × Option PyErr) (ticks : List (ℤ × ℤ))
    (st : σ) :
    ((translate_backlight setB ticks st).1.count none = 1) ∧
    ((translate_backlight setB ticks st).1.getLast? = some none) ∧
    (∀ g : Option ℚ → σ × Option PyErr, reset g = g none) := by
  refine ⟨?_, ?_, fun g => rfl⟩
  · have h := translateTicks_no_none setB ticks st
    have h0 : (translateTicks setB ticks st).1.count (none : Option ℚ) = 0 :=
      List.count_eq_zero.mpr (fun hmem => h none hmem rfl)
    show ((translateTicks setB ticks st).1 ++ [none]).count none = 1
    rw [List.count_append, h0]
    rfl
  · show ((translateTicks setB ticks st).1 ++ [none]).getLast? = some none
    exact List.getLast?_concat _

/-! ### XRandR enumeration happens only on the first apply call -/

/-- **C4 counterexample.** On a freshly constructed XRandR setter, the
second `set_brightness` call performs no CRTC re-enumeration (the connection
already exists, so `connect` returns immediately), refuting the claim that
every call re-enumerates. -/
theorem xrandr_reenumeration_cex :
    (xrandrSetBrightness (fun _ => [[0], [0], [0]]) [(7, ["eDP-1"])]
        (some (1/2))
        (xrandrSetBrightness (fun _ => [[0], [0], [0]]) [(7, ["eDP-1"])]
          (some (1/2)) (mkXRandR ["eDP-1"])).1).2.1 = false := by
  rfl

/-- **C4 (amended).** In the XRandR variant, the CRTC enumeration runs
inside `connect` only when no connection exists yet — that is, on the first
`set_brightness` call, which connects and runs `__find_crtcs`; every
subsequent call skips enumeration entirely and reuses the previously
recorded handles. -/
theorem xrandr_enumerates_only_first_call (cap : ℕ → GammaTable)
    (topo : Topology) (b : Option ℚ) (st : XRandRState) :
    (st.connected = false →
      (xrandrSetBrightness cap topo b st).2.1 = true ∧
      (xrandrSetBrightness cap topo b st).1
        = ⟨true, findCrtcs cap topo st.crtcs⟩) ∧
    (st.connected = true →
      (xrandrSetBrightness cap topo b st).2.1 = false ∧
      (xrandrSetBrightness cap topo b st).1 = st) := by
  constructor
  · intro h
    simp [xrandrSetBrightness, xrandrConnect, h]
  · intro h
    simp [xrandrSetBrightness, xrandrConnect, h]

/-- Witness for the amended C4: a fresh setter enumerates on its first call;
a connected one does not. -/
theorem xrandr_enumerates_only_first_call_witness :
    (xrandrSetBrightness (fun _ => [[0], [0], [0]]) [(7, ["eDP-1"])] none
      (mkXRandR ["eDP-1"])).2.1 = true ∧
    (xrandrSetBrightness (fun _ => [[0], [0], [0]]) [(7, ["eDP-1"])] none
      ⟨true, mkCrtcs ["eDP-1"]⟩).2.1 = false :=
  ⟨((xrandr_enumerates_only_first_call _ _ _ _).1 rfl).1,
   ((xrandr_enumerates_only_first_call _ _ _ _).2 rfl).1⟩

/-! ### Dict-key and invariant lemmas -/

theorem keys_clearIds (crtcs : Crtcs) :
    (clearIds crtcs).map Prod.fst = crtcs.map Prod.fst := by
  unfold clearIds
  rw [List.map_map]
  rfl

theorem keys_discoverCrtcs (cap : ℕ → GammaTable)
    (visits : List (ℕ × String)) (crtcs : Crtcs) :
    (discoverCrtcs cap visits crtcs).map Prod.fst = crtcs.map Prod.fst := by
  rw [discoverCrtcs_map, List.map_map]
  apply List.map_congr_left
  intro e _
  simpa using foldVisits_fst cap visits (e.1, ⟨none, e.2.original_gamma⟩)

theorem keysNodup_discoverCrtcs (cap : ℕ → GammaTable)
    (visits : List (ℕ × String)) (crtcs : Crtcs) (h : KeysNodup crtcs) :
    KeysNodup (discoverCrtcs cap visits crtcs) := by
  unfold KeysNodup at h ⊢
  rwa [keys_discoverCrtcs]

theorem keys_gnomeInitConfiguration (cap : ℤ → ℕ → GammaTable)
    (res : GnomeResources) (st : GnomeState) :
    (gnomeInitConfiguration cap res st).1.crtcs.map Prod.fst
      = st.crtcs.map Prod.fst := by
  unfold gnomeInitConfiguration
  split
  · rfl
  · exact keys_discoverCrtcs _ _ _

/-- With unique keys, dict iteration and dict lookup agree. -/
theorem lookupCrtc_of_mem_nodup (crtcs : Crtcs) (name : String)
    (c : CrtcState) (hn : KeysNodup crtcs) (hm : (name, c) ∈ crtcs) :
    lookupCrtc crtcs name = some c := by
  induction crtcs with
  | nil => cases hm
  | cons e rest ih =>
    obtain ⟨k, c0⟩ := e
    have hn2 : KeysNodup rest ∧ k ∉ rest.map Prod.fst := by
      unfold KeysNodup at hn
      rw [List.map_cons] at hn
      have h := List.nodup_cons.mp hn
      exact ⟨h.2, h.1⟩
    rcases List.mem_cons.mp hm with h1 | h2
    · injection h1 with ha hb
      subst ha
      subst hb
      simp [lookupCrtc]
    · by_cases hk : k = name
      · exfalso
        subst hk
        exact hn2.2 (List.mem_map.mpr ⟨(k, c), h2, rfl⟩)
      · simp only [lookupCrtc, hk, if_false, if_neg hk]
        exact ih hn2.1 h2

theorem applyLoop_cons_skip (crtcs : Crtcs) (b : Option ℚ) (name : String)
    (crtc : CrtcState) (rest : List (String × CrtcState))
    (hid : crtc.id = none) :
    applyLoop crtcs b ((name, crtc) :: rest) = applyLoop crtcs b rest := by
  conv_lhs => rw [applyLoop]
  rw [hid]

theorem applyLoop_cons_err (crtcs : Crtcs) (b : Option ℚ) (name : String)
    (crtc : CrtcState) (rest : List (String × CrtcState)) (cid : ℕ)
    (e2 : PyErr) (hid : crtc.id = some cid)
    (hgen : generate_gamma_table crtcs name b = .error e2) :
    applyLoop crtcs b ((name, crtc) :: rest) = ([], some e2) := by
  conv_lhs => rw [applyLoop]
  rw [hid, hgen]

theorem applyLoop_cons_badtable (crtcs : Crtcs) (b : Option ℚ)
    (name : String) (crtc : CrtcState) (rest : List (String × CrtcState))
    (cid : ℕ) (hid : crtc.id = some cid)
    (hgen : generate_gamma_table crtcs name b = .ok none) :
    applyLoop crtcs b ((name, crtc) :: rest) = ([], some .typeError) := by
  conv_lhs => rw [applyLoop]
  rw [hid, hgen]

theorem applyLoop_cons_set (crtcs : Crtcs) (b : Option ℚ) (name : String)
    (crtc : CrtcState) (rest : List (String × CrtcState)) (cid : ℕ)
    (t : GammaTable) (hid : crtc.id = some cid)
    (hgen : generate_gamma_table crtcs name b = .ok (some t)) :
    applyLoop crtcs b ((name, crtc) :: rest)
      = (⟨name, cid, t⟩ :: (applyLoop crtcs b rest).1,
         (applyLoop crtcs b rest).2) := by
  conv_lhs => rw [applyLoop]
  rw [hid, hgen]

/-- Every request issued by the apply loop names an iterated entry whose
CRTC handle is set. -/
theorem applyLoop_mem_calls (crtcs : Crtcs) (b : Option ℚ)
    (l : List (String × CrtcState)) :
    ∀ call ∈ (applyLoop crtcs b l).1,
      ∃ c2, (call.output, c2) ∈ l ∧ c2.id ≠ none := by
  induction l with
  | nil =>
    intro call hc
    simp [applyLoop] at hc
  | cons e rest ih =>
    obtain ⟨name, crtc⟩ := e
    intro call hc
    rcases hid : crtc.id with _ | cid
    · rw [applyLoop_cons_skip crtcs b name crtc rest hid] at hc
      obtain ⟨c2, hc2, hc3⟩ := ih call hc
      exact ⟨c2, List.mem_cons_of_mem _ hc2, hc3⟩
    · rcases hgen : generate_gamma_table crtcs name b with e2 | t
      · rw [applyLoop_cons_err crtcs b name crtc rest cid e2 hid hgen] at hc
        simp at hc
      · rcases t with _ | t2
        · rw [applyLoop_cons_badtable crtcs b name crtc rest cid hid hgen] at hc
          simp at hc
        · rw [applyLoop_cons_set crtcs b name crtc rest cid t2 hid hgen] at hc
          simp only [List.mem_cons] at hc
          rcases hc with hc | hc
          · subst hc
            exact ⟨crtc, List.mem_cons_self _ _, by rw [hid]; simp⟩
          · obtain ⟨c2, hc2, hc3⟩ := ih call hc
            exact ⟨c2, List.mem_cons_of_mem _ hc2, hc3⟩

/-- If every iterated entry is skipped, the apply loop does nothing. -/
theorem applyLoop_all_skip (crtcs : Crtcs) (b : Option ℚ)
    (l : List (String × CrtcState)) (h : ∀ e ∈ l, e.2.id = none) :
    applyLoop crtcs b l = ([], none) := by
  induction l with
  | nil => rfl
  | cons e rest ih =>
    obtain ⟨name, crtc⟩ := e
    have hid : crtc.id = none := h (name, crtc) (List.mem_cons_self _ _)
    rw [applyLoop_cons_skip crtcs b name crtc rest hid]
    exact ih (fun e he => h e (List.mem_cons_of_mem _ he))

/-- With unique keys and the id-implies-gamma invariant, the apply loop
never fails: the derivation is only invoked for outputs with a populated
`original_gamma`. -/
theorem applyLoop_no_error (crtcs : Crtcs) (b : Option ℚ)
    (l : List (String × CrtcState)) (hn : KeysNodup crtcs)
    (hsub : ∀ e ∈ l, e ∈ crtcs) (hinv : IdImpliesGamma crtcs) :
    (applyLoop crtcs b l).2 = none := by
  induction l with
  | nil => rfl
  | cons e rest ih =>
    obtain ⟨name, crtc⟩ := e
    have hmem : (name, crtc) ∈ crtcs := hsub _ (List.mem_cons_self _ _)
    have ihr := ih (fun e he => hsub e (List.mem_cons_of_mem _ he))
    rcases hid : crtc.id with _ | cid
    · rw [applyLoop_cons_skip crtcs b name crtc rest hid]
      exact ihr
    · have hlk : lookupCrtc crtcs name = some crtc :=
        lookupCrtc_of_mem_nodup crtcs name crtc hn hmem
      have hog : crtc.original_gamma ≠ none :=
        hinv (name, crtc) hmem (by rw [hid]; simp)
      rcases hog2 : crtc.original_gamma with _ | g
      · exact absurd hog2 hog
      rcases b with _ | f
      · have hgen : generate_gamma_table crtcs name none = .ok (some g) := by
          simp [generate_gamma_table, hlk, hog2]
        rw [applyLoop_cons_set crtcs none name crtc rest cid g hid hgen]
        exact ihr
      · have hgen : generate_gamma_table crtcs name (some f)
            = .ok (some (g.map (fun channel =>
                channel.map (fun i : ℤ => pytrunc ((i : ℚ) * f))))) := by
          simp [generate_gamma_table, hlk, hog2]
        rw [applyLoop_cons_set crtcs (some f) name crtc rest cid _ hid hgen]
        exact ihr

/-- Discovery establishes the id-implies-gamma invariant from any state. -/
theorem discoverCrtcs_invariant (cap : ℕ → GammaTable)
    (visits : List (ℕ × String)) (crtcs : Crtcs) :
    IdImpliesGamma (discoverCrtcs cap visits crtcs) := by
  intro e he h
  rw [discoverCrtcs_map] at he
  obtain ⟨e0, _, rfl⟩ := List.mem_map.mp he
  have hid := (foldVisits_id_set cap visits e0.1 e0.2.original_gamma).mp h
  exact (foldVisits_og_populated cap visits
    (e0.1, ⟨none, e0.2.original_gamma⟩)).mpr (Or.inr hid)

/-! ### Gnome serial short-circuit and the id-implies-gamma invariant -/

/-- **C6.** In the Gnome variant, a `GetResources` reply whose serial equals
the last-seen serial makes `init_configuration` a no-op: the state (every
`CrtcState` entry and the stored serial) is returned unchanged and no
`GetCrtcGamma` capture call is made.  A changed serial stores the new
serial and fully rebuilds the CRTC-id mapping: afterwards an entry has a
handle exactly when its name was just reported, and `originalGamma` is
populated exactly when it already was or the name was just reported (capture
only for newly-seen outputs lacking one). -/
theorem gnome_serial_short_circuit (cap2 : ℤ → ℕ → GammaTable)
    (res : GnomeResources) (st : GnomeState) :
    (some res.serial = st.serial → gnomeInitConfiguration cap2 res st = (st, [])) ∧
    (some res.serial ≠ st.serial →
      (gnomeInitConfiguration cap2 res st).1.serial = some res.serial ∧
      ∀ name c, lookupCrtc st.crtcs name = some c →
        ∃ c2, lookupCrtc (gnomeInitConfiguration cap2 res st).1.crtcs name
            = some c2 ∧
          (c2.id ≠ none ↔ name ∈ res.outputs.map Prod.snd) ∧
          (c2.original_gamma ≠ none
            ↔ (c.original_gamma ≠ none ∨ name ∈ res.outputs.map Prod.snd))) := by
  constructor
  · intro h
    simp [gnomeInitConfiguration, h]
  · intro h
    have hbranch : gnomeInitConfiguration cap2 res st
        = (⟨some res.serial,
            discoverCrtcs (cap2 res.serial) res.outputs st.crtcs⟩,
           captureCalls (cap2 res.serial) (clearIds st.crtcs) res.outputs) := by
      unfold gnomeInitConfiguration
      rw [if_neg h]
    rw [hbranch]
    refine ⟨rfl, ?_⟩
    intro name c hc
    rw [discoverCrtcs_map,
      lookupCrtc_map
        (fun e => res.outputs.foldl (crtcVisitEntry (cap2 res.serial))
          (e.1, ⟨none, e.2.original_gamma⟩))
        (fun e => by
          simpa using foldVisits_fst (cap2 res.serial) res.outputs
            (e.1, ⟨none, e.2.original_gamma⟩))
        st.crtcs name,
      hc]
    refine ⟨_, rfl, ?_, ?_⟩
    · exact foldVisits_id_set (cap2 res.serial) res.outputs name c.original_gamma
    · simpa using foldVisits_og_populated (cap2 res.serial) res.outputs
        (name, ⟨none, c.original_gamma⟩)

/-- Witness for C6: an unchanged serial leaves the state untouched with no
capture calls; a changed serial stores the new serial and records the
reported handle. -/
theorem gnome_serial_short_circuit_witness :
    gnomeInitConfiguration (fun _ _ => [[7]]) ⟨3, [(2, "a")]⟩
        ⟨some 3, [("a", ⟨none, none⟩)]⟩
      = (⟨some 3, [("a", ⟨none, none⟩)]⟩, []) ∧
    (gnomeInitConfiguration (fun _ _ => [[7]]) ⟨4, [(2, "a")]⟩
        ⟨some 3, [("a", ⟨none, none⟩)]⟩).1.serial = some 4 := by
  constructor
  · exact (gnome_serial_short_circuit (fun _ _ => [[7]]) ⟨3, [(2, "a")]⟩
      ⟨some 3, [("a", ⟨none, none⟩)]⟩).1 rfl
  · exact ((gnome_serial_short_circuit (fun _ _ => [[7]]) ⟨4, [(2, "a")]⟩
      ⟨some 3, [("a", ⟨none, none⟩)]⟩).2 (by decide)).1

/-- **C10.** After any completed discovery in either variant, every entry
with a recorded CRTC id also has a populated `originalGamma`; and since
`set_brightness` skips entries without an id, the gamma-table derivation is
only ever invoked for outputs with populated `originalGamma` — so an apply
call on a discovered state never fails (no `TypeError`/`KeyError` from the
derivation). -/
theorem id_implies_gamma_invariant (cap : ℕ → GammaTable)
    (cap2 : ℤ → ℕ → GammaTable) :
    (∀ (topo : Topology) (crtcs : Crtcs),
      IdImpliesGamma (findCrtcs cap topo crtcs)) ∧
    (∀ (res : GnomeResources) (st : GnomeState), IdImpliesGamma st.crtcs →
      IdImpliesGamma (gnomeInitConfiguration cap2 res st).1.crtcs) ∧
    (∀ (topo : Topology) (b : Option ℚ) (st : XRandRState),
      KeysNodup st.crtcs →
      (IdImpliesGamma st.crtcs ∨ st.connected = false) →
      (xrandrSetBrightness cap topo b st).2.2.2 = none) ∧
    (∀ (res : GnomeResources) (b : Option ℚ) (st : GnomeState),
      KeysNodup st.crtcs → IdImpliesGamma st.crtcs →
      (gnomeSetBrightness cap2 res b st).2.2 = none) := by
  have hfind : ∀ (topo : Topology) (crtcs : Crtcs),
      IdImpliesGamma (findCrtcs cap topo crtcs) :=
    fun topo crtcs => discoverCrtcs_invariant cap (topologyVisits topo) crtcs
  have hgnomeinit : ∀ (res : GnomeResources) (st : GnomeState),
      IdImpliesGamma st.crtcs →
      IdImpliesGamma (gnomeInitConfiguration cap2 res st).1.crtcs := by
    intro res st hinv
    unfold gnomeInitConfiguration
    split
    · exact hinv
    · exact discoverCrtcs_invariant (cap2 res.serial) res.outputs st.crtcs
  refine ⟨hfind, hgnomeinit, ?_, ?_⟩
  · intro topo b st hn hpre
    rcases hconn : st.connected with _ | _
    · have hbranch : xrandrSetBrightness cap topo b st
          = (⟨true, findCrtcs cap topo st.crtcs⟩, true,
             applyLoop (findCrtcs cap topo st.crtcs) b
               (findCrtcs cap topo st.crtcs)) := by
        unfold xrandrSetBrightness xrandrConnect
        rw [hconn]
        rfl
      rw [hbranch]
      apply applyLoop_no_error _ _ _ ?_ (fun e he => he) (hfind topo st.crtcs)
      unfold KeysNodup at hn ⊢
      unfold findCrtcs
      rwa [keys_discoverCrtcs]
    · have hinv : IdImpliesGamma st.crtcs := by
        rcases hpre with h | h
        · exact h
        · rw [hconn] at h
          cases h
      have hbranch : xrandrSetBrightness cap topo b st
          = (st, false, applyLoop st.crtcs b st.crtcs) := by
        unfold xrandrSetBrightness xrandrConnect
        rw [hconn]
        rfl
      rw [hbranch]
      exact applyLoop_no_error _ _ _ hn (fun e he => he) hinv
  · intro res b st hn hinv
    have hbranch : gnomeSetBrightness cap2 res b st
        = ((gnomeInitConfiguration cap2 res st).1,
           applyLoop (gnomeInitConfiguration cap2 res st).1.crtcs b
             (gnomeInitConfiguration cap2 res st).1.crtcs) := by
      rfl
    rw [hbranch]
    apply applyLoop_no_error _ _ _ ?_ (fun e he => he) (hgnomeinit res st hinv)
    unfold KeysNodup at hn ⊢
    rwa [keys_gnomeInitConfiguration]

/-- Witness for C10: a fresh XRandR setter and a discovered Gnome setter
both complete an apply call without failure. -/
theorem id_implies_gamma_invariant_witness :
    (xrandrSetBrightness (fun _ => [[7]]) [(2, ["a"])] (some (1/2))
      (mkXRandR ["a"])).2.2.2 = none ∧
    (gnomeSetBrightness (fun _ _ => [[7]]) ⟨4, [(2, "a")]⟩ (some (1/2))
      ⟨some 3, [("a", ⟨some 2, some [[7]]⟩)]⟩).2.2 = none := by
  constructor
  · exact (id_implies_gamma_invariant (fun _ => [[7]])
      (fun _ _ => [[7]])).2.2.1 [(2, ["a"])] (some (1/2)) (mkXRandR ["a"])
      (by unfold KeysNodup mkXRandR mkCrtcs; decide) (Or.inr rfl)
  · exact (id_implies_gamma_invariant (fun _ => [[7]])
      (fun _ _ => [[7]])).2.2.2 ⟨4, [(2, "a")]⟩ (some (1/2))
      ⟨some 3, [("a", ⟨some 2, some [[7]]⟩)]⟩
      (by unfold KeysNodup; decide)
      (by intro e he h; simp at he; rw [he]; simp)

/-! ### Unmatched output names stay inert -/

theorem applyLoop_no_calls_for_unset (crtcs : Crtcs) (b : Option ℚ)
    (name : String) (og : Option GammaTable) (hn : KeysNodup crtcs)
    (hc : lookupCrtc crtcs name = some ⟨none, og⟩) :
    ∀ call ∈ (applyLoop crtcs b crtcs).1, call.output ≠ name := by
  intro call hcall heq
  obtain ⟨c2, hmem, hid⟩ := applyLoop_mem_calls crtcs b crtcs call hcall
  rw [heq] at hmem
  have hlk := lookupCrtc_of_mem_nodup crtcs name c2 hn hmem
  rw [hc] at hlk
  injection hlk with h2
  rw [← h2] at hid
  simp at hid

theorem lookup_findCrtcs_unreported (cap : ℕ → GammaTable) (topo : Topology)
    (crtcs : Crtcs) (name : String) (og : Option GammaTable)
    (hc : lookupCrtc crtcs name = some ⟨none, og⟩)
    (hun : name ∉ (topologyVisits topo).map Prod.snd) :
    lookupCrtc (findCrtcs cap topo crtcs) name = some ⟨none, og⟩ := by
  unfold findCrtcs
  rw [discoverCrtcs_map,
    lookupCrtc_map
      (fun e => (topologyVisits topo).foldl (crtcVisitEntry cap)
        (e.1, ⟨none, e.2.original_gamma⟩))
      (fun e => by
        simpa using foldVisits_fst cap (topologyVisits topo)
          (e.1, ⟨none, e.2.original_gamma⟩))
      crtcs name,
    hc]
  have h := foldVisits_unreported cap (topologyVisits topo)
    (name, ⟨none, og⟩) (by simpa using hun)
  simpa using congrArg (fun e : String × CrtcState => some e.2) h

/-- One XRandR `set_brightness` tick leaves an unreported configured output
untouched and issues no request for it. -/
theorem xrandr_tick_inert (cap : ℕ → GammaTable) (topo : Topology)
    (b : Option ℚ) (st : XRandRState) (name : String)
    (og : Option GammaTable) (hn : KeysNodup st.crtcs)
    (hc : lookupCrtc st.crtcs name = some ⟨none, og⟩)
    (hun : name ∉ (topologyVisits topo).map Prod.snd) :
    KeysNodup (xrandrSetBrightness cap topo b st).1.crtcs ∧
    lookupCrtc (xrandrSetBrightness cap topo b st).1.crtcs name
      = some ⟨none, og⟩ ∧
    ∀ call ∈ (xrandrSetBrightness cap topo b st).2.2.1,
      call.output ≠ name := by
  have hconnKeys : KeysNodup (xrandrConnect cap topo st).1.crtcs := by
    unfold xrandrConnect
    split
    · exact hn
    · unfold KeysNodup at hn ⊢
      unfold findCrtcs
      rwa [keys_discoverCrtcs]
  have hconnLookup : lookupCrtc (xrandrConnect cap topo st).1.crtcs name
      = some ⟨none, og⟩ := by
    unfold xrandrConnect
    split
    · exact hc
    · exact lookup_findCrtcs_unreported cap topo st.crtcs name og hc hun
  have hres : xrandrSetBrightness cap topo b st
      = ((xrandrConnect cap topo st).1, (xrandrConnect cap topo st).2,
         applyLoop (xrandrConnect cap topo st).1.crtcs b
           (xrandrConnect cap topo st).1.crtcs) := rfl
  rw [hres]
  exact ⟨hconnKeys, hconnLookup,
    applyLoop_no_calls_for_unset _ b name og hconnKeys hconnLookup⟩

/-- One Gnome `set_brightness` tick leaves an unreported configured output
untouched and issues no request for it. -/
theorem gnome_tick_inert (cap2 : ℤ → ℕ → GammaTable) (res : GnomeResources)
    (b : Option ℚ) (st : GnomeState) (name : String)
    (og : Option GammaTable) (hn : KeysNodup st.crtcs)
    (hc : lookupCrtc st.crtcs name = some ⟨none, og⟩)
    (hun : name ∉ res.outputs.map Prod.snd) :
    KeysNodup (gnomeSetBrightness cap2 res b st).1.crtcs ∧
    lookupCrtc (gnomeSetBrightness cap2 res b st).1.crtcs name
      = some ⟨none, og⟩ ∧
    ∀ call ∈ (gnomeSetBrightness cap2 res b st).2.1, call.output ≠ name := by
  have hinitKeys : KeysNodup (gnomeInitConfiguration cap2 res st).1.crtcs := by
    unfold KeysNodup at hn ⊢
    rwa [keys_gnomeInitConfiguration]
  have hinitLookup :
      lookupCrtc (gnomeInitConfiguration cap2 res st).1.crtcs name
        = some ⟨none, og⟩ := by
    unfold gnomeInitConfiguration
    split
    · exact hc
    · rw [discoverCrtcs_map,
        lookupCrtc_map
          (fun e => res.outputs.foldl (crtcVisitEntry (cap2 res.serial))
            (e.1, ⟨none, e.2.original_gamma⟩))
          (fun e => by
            simpa using foldVisits_fst (cap2 res.serial) res.outputs
              (e.1, ⟨none, e.2.original_gamma⟩))
          st.crtcs name,
        hc]
      have h := foldVisits_unreported (cap2 res.serial) res.outputs
        (name, ⟨none, og⟩) (by simpa using hun)
      simpa using congrArg (fun e : String × CrtcState => some e.2) h
  have hres : gnomeSetBrightness cap2 res b st
      = ((gnomeInitConfiguration cap2 res st).1,
         applyLoop (gnomeInitConfiguration cap2 res st).1.crtcs b
           (gnomeInitConfiguration cap2 res st).1.crtcs) := rfl
  rw [hres]
  exact ⟨hinitKeys, hinitLookup,
    applyLoop_no_calls_for_unset _ b name og hinitKeys hinitLookup⟩

theorem xrandrRun_cons_ok (cap : ℕ → GammaTable) (topo : Topology)
    (b : Option ℚ) (rest : List (Topology × Option ℚ)) (st : XRandRState)
    (herr : (xrandrSetBrightness cap topo b st).2.2.2 = none) :
    xrandrRun cap ((topo, b) :: rest) st
      = ((xrandrRun cap rest (xrandrSetBrightness cap topo b st).1).1,
         (xrandrSetBrightness cap topo b st).2.2.1
           ++ (xrandrRun cap rest (xrandrSetBrightness cap topo b st).1).2.1,
         (xrandrRun cap rest (xrandrSetBrightness cap topo b st).1).2.2) := by
  conv_lhs => rw [xrandrRun]
  dsimp only
  rw [herr]

theorem xrandrRun_cons_err (cap : ℕ → GammaTable) (topo : Topology)
    (b : Option ℚ) (rest : List (Topology × Option ℚ)) (st : XRandRState)
    (e : PyErr) (herr : (xrandrSetBrightness cap topo b st).2.2.2 = some e) :
    xrandrRun cap ((topo, b) :: rest) st
      = ((xrandrSetBrightness cap topo b st).1,
         (xrandrSetBrightness cap topo b st).2.2.1, some e) := by
  conv_lhs => rw [xrandrRun]
  dsimp only
  rw [herr]

theorem gnomeRun_cons_ok (cap2 : ℤ → ℕ → GammaTable) (res : GnomeResources)
    (b : Option ℚ) (rest : List (GnomeResources × Option ℚ))
    (st : GnomeState)
    (herr : (gnomeSetBrightness cap2 res b st).2.2 = none) :
    gnomeRun cap2 ((res, b) :: rest) st
      = ((gnomeRun cap2 rest (gnomeSetBrightness cap2 res b st).1).1,
         (gnomeSetBrightness cap2 res b st).2.1
           ++ (gnomeRun cap2 rest (gnomeSetBrightness cap2 res b st).1).2.1,
         (gnomeRun cap2 rest (gnomeSetBrightness cap2 res b st).1).2.2) := by
  conv_lhs => rw [gnomeRun]
  dsimp only
  rw [herr]

theorem gnomeRun_cons_err (cap2 : ℤ → ℕ → GammaTable) (res : GnomeResources)
    (b : Option ℚ) (rest : List (GnomeResources × Option ℚ))
    (st : GnomeState) (e : PyErr)
    (herr : (gnomeSetBrightness cap2 res b st).2.2 = some e) :
    gnomeRun cap2 ((res, b) :: rest) st
      = ((gnomeSetBrightness cap2 res b st).1,
         (gnomeSetBrightness cap2 res b st).2.1, some e) := by
  conv_lhs => rw [gnomeRun]
  dsimp only
  rw [herr]

theorem xrandrRun_inert (cap : ℕ → GammaTable)
    (ticks : List (Topology × Option ℚ)) (st : XRandRState) (name : String)
    (og : Option GammaTable) (hn : KeysNodup st.crtcs)
    (hc : lookupCrtc st.crtcs name = some ⟨none, og⟩)
    (hun : ∀ t ∈ ticks, name ∉ (topologyVisits t.1).map Prod.snd) :
    lookupCrtc (xrandrRun cap ticks st).1.crtcs name = some ⟨none, og⟩ ∧
    ∀ call ∈ (xrandrRun cap ticks st).2.1, call.output ≠ name := by
  induction ticks generalizing st with
  | nil => exact ⟨hc, by intro call hcall; simp [xrandrRun] at hcall⟩
  | cons t rest ih =>
    obtain ⟨topo, b⟩ := t
    have htick := xrandr_tick_inert cap topo b st name og hn hc
      (hun (topo, b) (List.mem_cons_self _ _))
    rcases herr : (xrandrSetBrightness cap topo b st).2.2.2 with _ | e
    · rw [xrandrRun_cons_ok cap topo b rest st herr]
      have hrest := ih (xrandrSetBrightness cap topo b st).1 htick.1 htick.2.1
        (fun t ht => hun t (List.mem_cons_of_mem _ ht))
      refine ⟨hrest.1, ?_⟩
      intro call hcall
      rcases List.mem_append.mp hcall with h | h
      · exact htick.2.2 call h
      · exact hrest.2 call h
    · rw [xrandrRun_cons_err cap topo b rest st e herr]
      exact ⟨htick.2.1, htick.2.2⟩

theorem gnomeRun_inert (cap2 : ℤ → ℕ → GammaTable)
    (ticks : List (GnomeResources × Option ℚ)) (st : GnomeState)
    (name : String) (og : Option GammaTable) (hn : KeysNodup st.crtcs)
    (hc : lookupCrtc st.crtcs name = some ⟨none, og⟩)
    (hun : ∀ t ∈ ticks, name ∉ t.1.outputs.map Prod.snd) :
    lookupCrtc (gnomeRun cap2 ticks st).1.crtcs name = some ⟨none, og⟩ ∧
    ∀ call ∈ (gnomeRun cap2 ticks st).2.1, call.output ≠ name := by
  induction ticks generalizing st with
  | nil => exact ⟨hc, by intro call hcall; simp [gnomeRun] at hcall⟩
  | cons t rest ih =>
    obtain ⟨res, b⟩ := t
    have htick := gnome_tick_inert cap2 res b st name og hn hc
      (hun (res, b) (List.mem_cons_self _ _))
    rcases herr : (gnomeSetBrightness cap2 res b st).2.2 with _ | e
    · rw [gnomeRun_cons_ok cap2 res b rest st herr]
      have hrest := ih (gnomeSetBrightness cap2 res b st).1 htick.1 htick.2.1
        (fun t ht => hun t (List.mem_cons_of_mem _ ht))
      refine ⟨hrest.1, ?_⟩
      intro call hcall
      rcases List.mem_append.mp hcall with h | h
      · exact htick.2.2 call h
      · exact hrest.2 call h
    · rw [gnomeRun_cons_err cap2 res b rest st e herr]
      exact ⟨htick.2.1, htick.2.2⟩

theorem discover_singleton_unreported (cap : ℕ → GammaTable)
    (visits : List (ℕ × String)) (name : String) (og : Option GammaTable)
    (hun : name ∉ visits.map Prod.snd) :
    discoverCrtcs cap visits [(name, ⟨none, og⟩)] = [(name, ⟨none, og⟩)] := by
  rw [discoverCrtcs_map]
  show [visits.foldl (crtcVisitEntry cap) (name, ⟨none, og⟩)] = _
  rw [foldVisits_unreported cap visits (name, ⟨none, og⟩) (by simpa using hun)]

/-- XRandR spy run: a single configured output never reported by the server
receives zero `SetCrtcGamma` calls and causes no failure, over any number of
ticks. -/
theorem xrandr_spy_run (cap : ℕ → GammaTable) (name : String)
    (og : Option GammaTable) (conn : Bool)
    (ticks : List (Topology × Option ℚ))
    (hun : ∀ t ∈ ticks, name ∉ (topologyVisits t.1).map Prod.snd) :
    (xrandrRun cap ticks ⟨conn, [(name, ⟨none, og⟩)]⟩).2.1 = [] ∧
    (xrandrRun cap ticks ⟨conn, [(name, ⟨none, og⟩)]⟩).2.2 = none := by
  induction ticks generalizing conn with
  | nil => exact ⟨rfl, rfl⟩
  | cons t rest ih =>
    obtain ⟨topo, b⟩ := t
    have hconn : (xrandrConnect cap topo ⟨conn, [(name, ⟨none, og⟩)]⟩).1
        = ⟨true, [(name, ⟨none, og⟩)]⟩ := by
      cases conn
      · rw [show xrandrConnect cap topo ⟨false, [(name, ⟨none, og⟩)]⟩
            = (⟨true, findCrtcs cap topo [(name, ⟨none, og⟩)]⟩, true) from rfl]
        show (⟨true, findCrtcs cap topo [(name, ⟨none, og⟩)]⟩ : XRandRState) = _
        unfold findCrtcs
        rw [discover_singleton_unreported cap (topologyVisits topo) name og
          (hun (topo, b) (List.mem_cons_self _ _))]
      · rfl
    have hskip : applyLoop [(name, (⟨none, og⟩ : CrtcState))] b
        [(name, (⟨none, og⟩ : CrtcState))] = ([], none) :=
      applyLoop_all_skip _ b _ (by intro e he; simp at he; rw [he])
    have hsb : xrandrSetBrightness cap topo b ⟨conn, [(name, ⟨none, og⟩)]⟩
        = (⟨true, [(name, ⟨none, og⟩)]⟩,
           (xrandrConnect cap topo ⟨conn, [(name, ⟨none, og⟩)]⟩).2,
           [], none) := by
      show ((xrandrConnect cap topo ⟨conn, [(name, ⟨none, og⟩)]⟩).1, _,
        (applyLoop (xrandrConnect cap topo ⟨conn, [(name, ⟨none, og⟩)]⟩).1.crtcs b
          (xrandrConnect cap topo ⟨conn, [(name, ⟨none, og⟩)]⟩).1.crtcs).1,
        (applyLoop (xrandrConnect cap topo ⟨conn, [(name, ⟨none, og⟩)]⟩).1.crtcs b
          (xrandrConnect cap topo ⟨conn, [(name, ⟨none, og⟩)]⟩).1.crtcs).2) = _
      rw [hconn]
      show (_, _, (applyLoop [(name, ⟨none, og⟩)] b [(name, ⟨none, og⟩)]).1,
        (applyLoop [(name, ⟨none, og⟩)] b [(name, ⟨none, og⟩)]).2) = _
      rw [hskip]
    have herr : (xrandrSetBrightness cap topo b
        ⟨conn, [(name, ⟨none, og⟩)]⟩).2.2.2 = none := by
      rw [hsb]
    rw [xrandrRun_cons_ok cap topo b rest _ herr, hsb]
    have hrest := ih true (fun t ht => hun t (List.mem_cons_of_mem _ ht))
    exact ⟨by simpa using hrest.1, hrest.2⟩

/-- Gnome spy run: a single configured output never reported by the session
service receives zero `SetCrtcGamma` calls and causes no failure, over any
number of ticks. -/
theorem gnome_spy_run (cap2 : ℤ → ℕ → GammaTable) (name : String)
    (og : Option GammaTable) (serial : Option ℤ)
    (ticks : List (GnomeResources × Option ℚ))
    (hun : ∀ t ∈ ticks, name ∉ t.1.outputs.map Prod.snd) :
    (gnomeRun cap2 ticks ⟨serial, [(name, ⟨none, og⟩)]⟩).2.1 = [] ∧
    (gnomeRun cap2 ticks ⟨serial, [(name, ⟨none, og⟩)]⟩).2.2 = none := by
  induction ticks generalizing serial with
  | nil => exact ⟨rfl, rfl⟩
  | cons t rest ih =>
    obtain ⟨res, b⟩ := t
    have hinit : ∃ s2, (gnomeInitConfiguration cap2 res
        ⟨serial, [(name, ⟨none, og⟩)]⟩).1 = ⟨s2, [(name, ⟨none, og⟩)]⟩ := by
      unfold gnomeInitConfiguration
      split
      · exact ⟨serial, rfl⟩
      · refine ⟨some res.serial, ?_⟩
        show GnomeState.mk _ _ = _
        rw [discover_singleton_unreported (cap2 res.serial) res.outputs name og
          (hun (res, b) (List.mem_cons_self _ _))]
    obtain ⟨s2, hs2⟩ := hinit
    have hskip : applyLoop [(name, (⟨none, og⟩ : CrtcState))] b
        [(name, (⟨none, og⟩ : CrtcState))] = ([], none) :=
      applyLoop_all_skip _ b _ (by intro e he; simp at he; rw [he])
    have hsb : gnomeSetBrightness cap2 res b ⟨serial, [(name, ⟨none, og⟩)]⟩
        = (⟨s2, [(name, ⟨none, og⟩)]⟩, [], none) := by
      show ((gnomeInitConfiguration cap2 res ⟨serial, [(name, ⟨none, og⟩)]⟩).1,
        (applyLoop (gnomeInitConfiguration cap2 res
            ⟨serial, [(name, ⟨none, og⟩)]⟩).1.crtcs b
          (gnomeInitConfiguration cap2 res
            ⟨serial, [(name, ⟨none, og⟩)]⟩).1.crtcs).1,
        (applyLoop (gnomeInitConfiguration cap2 res
            ⟨serial, [(name, ⟨none, og⟩)]⟩).1.crtcs b
          (gnomeInitConfiguration cap2 res
            ⟨serial, [(name, ⟨none, og⟩)]⟩).1.crtcs).2) = _
      rw [hs2]
      show (_, (applyLoop [(name, ⟨none, og⟩)] b [(name, ⟨none, og⟩)]).1,
        (applyLoop [(name, ⟨none, og⟩)] b [(name, ⟨none, og⟩)]).2) = _
      rw [hskip]
    have herr : (gnomeSetBrightness cap2 res b
        ⟨serial, [(name, ⟨none, og⟩)]⟩).2.2 = none := by
      rw [hsb]
    rw [gnomeRun_cons_ok cap2 res b rest _ herr, hsb]
    have hrest := ih s2 (fun t ht => hun t (List.mem_cons_of_mem _ ht))
    exact ⟨by simpa using hrest.1, hrest.2⟩

/-- **C7.** A configured output name never reported by discovery keeps its
CRTC handle unset for the whole run and is silently skipped on every apply
call in both variants: its stored entry stays `⟨none, og⟩`, no
`SetCrtcGamma` request ever names it, and — with it as the only configured
output (a spy backend) — whole runs produce zero requests and no error. -/
theorem unmatched_output_inert (cap : ℕ → GammaTable)
    (cap2 : ℤ → ℕ → GammaTable) (name : String) :
    (∀ (st : XRandRState) (ticks : List (Topology × Option ℚ))
        (og : Option GammaTable),
      KeysNodup st.crtcs →
      lookupCrtc st.crtcs name = some ⟨none, og⟩ →
      (∀ t ∈ ticks, name ∉ (topologyVisits t.1).map Prod.snd) →
      lookupCrtc (xrandrRun cap ticks st).1.crtcs name = some ⟨none, og⟩ ∧
      ∀ call ∈ (xrandrRun cap ticks st).2.1, call.output ≠ name) ∧
    (∀ (st : GnomeState) (ticks : List (GnomeResources × Option ℚ))
        (og : Option GammaTable),
      KeysNodup st.crtcs →
      lookupCrtc st.crtcs name = some ⟨none, og⟩ →
      (∀ t ∈ ticks, name ∉ t.1.outputs.map Prod.snd) →
      lookupCrtc (gnomeRun cap2 ticks st).1.crtcs name = some ⟨none, og⟩ ∧
      ∀ call ∈ (gnomeRun cap2 ticks st).2.1, call.output ≠ name) ∧
    (∀ (conn : Bool) (og : Option GammaTable)
        (ticks : List (Topology × Option ℚ)),
      (∀ t ∈ ticks, name ∉ (topologyVisits t.1).map Prod.snd) →
      (xrandrRun cap ticks ⟨conn, [(name, ⟨none, og⟩)]⟩).2.1 = [] ∧
      (xrandrRun cap ticks ⟨conn, [(name, ⟨none, og⟩)]⟩).2.2 = none) ∧
    (∀ (serial : Option ℤ) (og : Option GammaTable)
        (ticks : List (GnomeResources × Option ℚ)),
      (∀ t ∈ ticks, name ∉ t.1.outputs.map Prod.snd) →
      (gnomeRun cap2 ticks ⟨serial, [(name, ⟨none, og⟩)]⟩).2.1 = [] ∧
      (gnomeRun cap2 ticks ⟨serial, [(name, ⟨none, og⟩)]⟩).2.2 = none) :=
  ⟨fun st ticks og hn hc hun => xrandrRun_inert cap ticks st name og hn hc hun,
   fun st ticks og hn hc hun => gnomeRun_inert cap2 ticks st name og hn hc hun,
   fun conn og ticks hun => xrandr_spy_run cap name og conn ticks hun,
   fun serial og ticks hun => gnome_spy_run cap2 name og serial ticks hun⟩

/-- Witness for C7: a two-output configuration where only `"a"` is ever
reported leaves `"b"` without a handle and without requests over two ticks;
the spy run with only `"b"` configured issues nothing and does not fail. -/
theorem unmatched_output_inert_witness :
    (lookupCrtc (xrandrRun (fun _ => [[7]])
        [([(2, ["a"])], some (1/2)), ([(2, ["a"])], none)]
        (mkXRandR ["a", "b"])).1.crtcs "b" = some ⟨none, none⟩ ∧
      ∀ call ∈ (xrandrRun (fun _ => [[7]])
        [([(2, ["a"])], some (1/2)), ([(2, ["a"])], none)]
        (mkXRandR ["a", "b"])).2.1, call.output ≠ "b") ∧
    (xrandrRun (fun _ => [[7]]) [([(2, ["a"])], some (1/2))]
      ⟨false, [("b", ⟨none, none⟩)]⟩).2.1 = [] ∧
    (xrandrRun (fun _ => [[7]]) [([(2, ["a"])], some (1/2))]
      ⟨false, [("b", ⟨none, none⟩)]⟩).2.2 = none := by
  refine ⟨?_, ?_⟩
  · exact (unmatched_output_inert (fun _ => [[7]]) (fun _ _ => [[7]]) "b").1
      (mkXRandR ["a", "b"])
      [([(2, ["a"])], some (1/2)), ([(2, ["a"])], none)] none
      (by unfold KeysNodup mkXRandR mkCrtcs; decide) (by decide)
      (by decide)
  · exact (unmatched_output_inert (fun _ => [[7]]) (fun _ _ => [[7]]) "b").2.2.1
      false none [([(2, ["a"])], some (1/2))] (by decide)

end Backbrightness
